import Mathlib

/-!
# Verification of the news-scrapping aggregation-and-curation pipeline

Shallow embedding of the core of the `news-scrapping` repository
(`internal/scraper/scraper.go`, `internal/ai/client.go`,
`internal/ai/processor.go`, `internal/config/config.go` scheduler part),
together with proofs about the spec's testable properties.

Modelling conventions:
* Go strings are modelled as `GoStr := List Char` ("units": one list
  element per Go byte/character; the claims speak of "units").
* Go's `strings.ReplaceAll` / the `for strings.Contains` loop are
  embedded with an explicit fuel argument equal to the string length,
  which is always sufficient (each iteration consumes at least one
  unit); this keeps every definition structurally recursive and
  kernel-executable.
* Timestamps are integers (hours as units for the scraper's recency
  window, seconds of local wall-clock time for the scheduler; the
  configured zone Asia/Jakarta has a fixed offset and no DST, so local
  time is linear).
* External collaborators (the network fetches, `json.Unmarshal`, the
  Gemini call) are parameters: `decode` stands for `json.Unmarshal`
  into `models.NewsResponse`, `service` for the generate-content call.
-/

deriving instance DecidableEq for Except

/-! ## Go string model -/

abbrev GoStr := List Char

/-- `strings.ReplaceAll` (leftmost, non-overlapping), with explicit fuel;
fuel `s.length` always suffices because every step consumes at least one
unit of the input. -/
def replaceAllGo (p r : GoStr) : Nat → GoStr → GoStr
  | 0, s => s
  | _ + 1, [] => []
  | fuel + 1, c :: t =>
    if !p.isEmpty && p.isPrefixOf (c :: t) then
      r ++ replaceAllGo p r fuel (List.drop (p.length - 1) t)
    else
      c :: replaceAllGo p r fuel t

/-- `strings.ReplaceAll s p r` from Go's standard library. -/
def replaceAll (p r s : GoStr) : GoStr := replaceAllGo p r s.length s

/-- `strings.Contains s p`. -/
def containsSub (p : GoStr) : GoStr → Bool
  | [] => p.isEmpty
  | c :: t => p.isPrefixOf (c :: t) || containsSub p t

/-- Whitespace characters recognised by the model of `strings.TrimSpace`
(ASCII subset; the repository only meets ASCII whitespace here). -/
def isSpaceChar (c : Char) : Bool :=
  c = ' ' || c = '\t' || c = '\n' || c = '\r'

/-- `strings.TrimSpace`. -/
def trimStr (s : GoStr) : GoStr :=
  ((s.dropWhile isSpaceChar).reverse.dropWhile isSpaceChar).reverse

/-- `strings.TrimSuffix s pat`: drops one trailing occurrence of `pat`
when present. -/
def trimSuffixStr (s pat : GoStr) : GoStr :=
  if pat.isSuffixOf s then s.take (s.length - pat.length) else s

/-- `strings.ToLower` (ASCII model; every keyword in the source is ASCII). -/
def toLowerStr (s : GoStr) : GoStr := s.map Char.toLower

/-- `strings.Index s c` for a single-character pattern, as an optional
index (`none` models Go's `-1`). -/
def firstIndexOf (c : Char) : GoStr → Option Nat
  | [] => none
  | a :: t => if a = c then some 0 else (firstIndexOf c t).map (· + 1)

/-- `strings.LastIndex s c` for a single-character pattern. -/
def lastIndexOf (c : Char) (s : GoStr) : Option Nat :=
  (firstIndexOf c s.reverse).map (fun i => s.length - 1 - i)

/-! ## Shared data model (`pkg/models`) -/

/-- `models.NewsItem`. -/
structure NewsItem where
  title : GoStr
  summary : GoStr
  url : GoStr
  source : GoStr
  publishedAt : Int
deriving DecidableEq

/-- `models.TokenUsage`. -/
structure TokenUsage where
  inputTokens : Nat
  outputTokens : Nat
  totalTokens : Nat
deriving DecidableEq

/-- `models.NewsResponse`. -/
structure NewsResponse where
  news : List NewsItem
  tokenUsage : Option TokenUsage
deriving DecidableEq

/-! ## Feed Fetcher (`internal/scraper/scraper.go`) -/

/-- The fixed replacement table of `cleanText` lines 390-394: tag pattern
paired with its replacement. -/
def primaryTagTable : List (GoStr × GoStr) :=
  [("<p>".toList, [])
  , ("</p>".toList, [' '])
  , ("<br>".toList, [' '])
  , ("<br/>".toList, [' '])
  , ("<br />".toList, [' '])]

/-- The `htmlTags` list of `cleanText` lines 397-399, each removed
(replaced by the empty string). -/
def htmlTags : List GoStr :=
  ["<div>".toList, "</div>".toList, "<span>".toList, "</span>".toList
  , "<a>".toList, "</a>".toList, "<strong>".toList, "</strong>".toList
  , "<b>".toList, "</b>".toList, "<i>".toList, "</i>".toList
  , "<em>".toList, "</em>".toList, "<u>".toList, "</u>".toList]

def twoSpace : GoStr := [' ', ' ']

def oneSpace : GoStr := [' ']

/-- The whitespace-squeezing loop `for strings.Contains(text, "  ")` of
`cleanText` lines 411-413, with explicit fuel (each iteration strictly
shrinks the text, so fuel `s.length` suffices). -/
def collapseSpacesGo : Nat → GoStr → GoStr
  | 0, s => s
  | fuel + 1, s =>
    if containsSub twoSpace s then collapseSpacesGo fuel (replaceAll twoSpace oneSpace s)
    else s

def collapseSpaces (s : GoStr) : GoStr := collapseSpacesGo s.length s

/-- `cleanText` (scraper.go lines 388-416): tag removal, trim, newline
and tab replacement, repeated-space collapse. -/
def cleanText (text : GoStr) : GoStr :=
  let t1 := primaryTagTable.foldl (fun acc pr => replaceAll pr.1 pr.2 acc) text
  let t2 := htmlTags.foldl (fun acc tag => replaceAll tag [] acc) t1
  let t3 := trimStr t2
  let t4 := replaceAll ['\n'] oneSpace t3
  let t5 := replaceAll ['\t'] oneSpace t4
  collapseSpaces t5

/-- The `aiKeywords` list of `isAIRelated`. -/
def aiKeywords : List GoStr :=
  ["artificial intelligence".toList, "ai".toList, "machine learning".toList, "ml".toList
  , "deep learning".toList, "neural network".toList, "chatgpt".toList, "openai".toList
  , "google ai".toList, "microsoft ai".toList, "anthropic".toList, "claude".toList
  , "generative ai".toList, "llm".toList, "large language model".toList
  , "computer vision".toList, "natural language processing".toList, "nlp".toList
  , "automation".toList, "robotics".toList, "algorithm".toList, "data science".toList
  , "tensorflow".toList, "pytorch".toList, "hugging face".toList]

/-- `isAIRelated` (scraper.go lines 290-310). -/
def isAIRelated (content : GoStr) : Bool :=
  let c := toLowerStr content
  aiKeywords.any (fun k => containsSub k c)

/-- The `globalKeywords` list of `isGlobalBusinessRelated`. -/
def globalKeywords : List GoStr :=
  ["stock".toList, "market".toList, "nasdaq".toList, "dow".toList, "s&p".toList
  , "earnings".toList, "revenue".toList, "profit".toList
  , "economy".toList, "inflation".toList, "recession".toList, "gdp".toList
  , "interest rate".toList, "federal reserve".toList
  , "economic".toList, "fiscal".toList, "monetary".toList, "trade war".toList, "tariff".toList
  , "bitcoin".toList, "ethereum".toList, "crypto".toList, "cryptocurrency".toList
  , "blockchain".toList, "defi".toList
  , "fintech".toList, "banking".toList, "payment".toList, "financial services".toList
  , "lending".toList
  , "merger".toList, "acquisition".toList, "ipo".toList, "funding".toList
  , "investment".toList, "venture capital".toList
  , "startup".toList, "unicorn".toList, "valuation".toList, "ceo".toList
  , "executive".toList, "leadership".toList
  , "corporate".toList, "business strategy".toList, "partnerships".toList
  , "regulation".toList, "policy".toList, "government".toList, "senate".toList
  , "congress".toList, "biden".toList
  , "trump".toList, "china".toList, "trade".toList, "sanctions".toList
  , "antitrust".toList, "monopoly".toList
  , "apple".toList, "microsoft".toList, "google".toList, "amazon".toList
  , "meta".toList, "tesla".toList, "nvidia".toList
  , "samsung".toList, "tsmc".toList, "intel".toList, "amd".toList]

/-- `isGlobalBusinessRelated` (scraper.go lines 350-385). -/
def isGlobalBusinessRelated (content : GoStr) : Bool :=
  let c := toLowerStr content
  globalKeywords.any (fun k => containsSub k c)

def strAI : GoStr := "ai".toList

def strGlobal : GoStr := "global".toList

/-- One parsed feed entry as handed over by `gofeed` (`feed.Items`
elements; only the fields the scraper reads). -/
structure FeedEntry where
  title : GoStr
  description : GoStr
  link : GoStr
  publishedParsed : Option Int
  updatedParsed : Option Int
deriving DecidableEq

/-- Publish-timestamp computation of `scrapeRSSFeed` lines 229-237:
`PublishedParsed`, else `UpdatedParsed`, else "now". -/
def entryTime (now : Int) (e : FeedEntry) : Int :=
  match e.publishedParsed with
  | some t => t
  | none =>
    match e.updatedParsed with
    | some t => t
    | none => now

/-- Content filter selection of `scrapeRSSFeed` lines 244-252. -/
def shouldIncludeEntry (newsType : GoStr) (e : FeedEntry) : Bool :=
  if newsType = strAI then isAIRelated (e.title ++ oneSpace ++ e.description)
  else if newsType = strGlobal then isGlobalBusinessRelated (e.title ++ oneSpace ++ e.description)
  else true

/-- Summary-length cap of `scrapeRSSFeed` lines 267-270. -/
def capSummary300 (s : GoStr) : GoStr :=
  if 300 < s.length then s.take 297 ++ "...".toList else s

/-- Item construction of `scrapeRSSFeed` lines 258-270. -/
def mkScrapedItem (srcName : GoStr) (now : Int) (e : FeedEntry) : NewsItem :=
  { title := cleanText e.title
  , summary := capSummary300 (cleanText e.description)
  , url := e.link
  , source := srcName
  , publishedAt := entryTime now e }

/-- `maxItemsPerSource` of `scrapeRSSFeed` lines 274-278. -/
def maxItemsPerSource (newsType : GoStr) : Nat :=
  if newsType = strGlobal then 8 else 12

/-- The entry loop of `scrapeRSSFeed` lines 228-283: recency cutoff is
`now - 24` (hours as units), filter, item construction, per-source cap
with early break after append. -/
def scrapeRSSFeedLoop (srcName newsType : GoStr) (now : Int) :
    List FeedEntry → List NewsItem → List NewsItem
  | [], acc => acc
  | e :: rest, acc =>
    if entryTime now e < now - 24 then
      scrapeRSSFeedLoop srcName newsType now rest acc
    else if !shouldIncludeEntry newsType e then
      scrapeRSSFeedLoop srcName newsType now rest acc
    else
      let acc2 := acc ++ [mkScrapedItem srcName now e]
      if maxItemsPerSource newsType ≤ acc2.length then acc2
      else scrapeRSSFeedLoop srcName newsType now rest acc2

/-- `scrapeRSSFeed` (scraper.go lines 207-287) after the feed has been
fetched and parsed (the network part is an external collaborator; `now`
and the parsed entries are its inputs). -/
def scrapeRSSFeed (srcName newsType : GoStr) (now : Int) (entries : List FeedEntry) :
    List NewsItem :=
  scrapeRSSFeedLoop srcName newsType now entries []

/-! ## Aggregator (`Scraper.ScrapeNewsByType`, scraper.go lines 31-95) -/

/-- The error of the all-sources-empty case, carrying the per-source
failure diagnostics. -/
inductive ScrapeError where
  | noItemsScraped (failures : List GoStr)
deriving DecidableEq

/-- The concurrent merge of per-source results (lines 53-75): successes
are appended into `allNews`, failures are sent to the error channel.
The goroutine completion order is scheduler-dependent; the model fixes
the source order, which the claims do not depend on (only emptiness and
membership matter). -/
def mergeScraped (results : List (Except GoStr (List NewsItem))) : List NewsItem :=
  results.foldr
    (fun r acc =>
      match r with
      | .ok l => l ++ acc
      | .error _ => acc)
    []

/-- The per-source failures collected from the error channel (lines 79-82). -/
def scrapeFailures (results : List (Except GoStr (List NewsItem))) : List GoStr :=
  results.foldr
    (fun r acc =>
      match r with
      | .ok _ => acc
      | .error e => e :: acc)
    []

/-- `Scraper.ScrapeNewsByType` (lines 31-95) with the per-source fetch
outcomes as input: fails with `noItemsScraped` carrying the failure
list exactly when the merged sequence is empty. -/
def scrapeNewsByType (results : List (Except GoStr (List NewsItem))) :
    Except ScrapeError (List NewsItem) :=
  let allNews := mergeScraped results
  if allNews = [] then .error (.noItemsScraped (scrapeFailures results))
  else .ok allNews

/-! ## Curation Engine (`internal/ai/client.go`, `internal/ai/processor.go`) -/

/-- The error taxonomy of `Client.ProcessNewsByType`: transport failure,
no candidates, empty response text, unparsable response (carrying the
response text, lines 237-243), no news items (line 249). -/
inductive ClientError where
  | generateFailed
  | noCandidates
  | emptyResponse
  | parseFailed (raw : GoStr)
  | noNews
deriving DecidableEq

/-- Outcome of the external Gemini call (`model.GenerateContent` plus
candidate/usage extraction, lines 171-198): transport error, an empty
candidate list, or the concatenated response text with optional usage
counters. -/
inductive ServiceOutcome where
  | fail
  | noCandidates
  | reply (text : GoStr) (usage : Option TokenUsage)
deriving DecidableEq

def fenceJson : GoStr := "```json".toList

def fencePlain : GoStr := "```".toList

/-- Code-fence stripping of `Client.ProcessNewsByType` lines 216-222:
`strings.CutPrefix` + `strings.TrimSuffix` + `strings.TrimSpace`. -/
def stripFences (t : GoStr) : GoStr :=
  if fenceJson.isPrefixOf t then
    trimStr (trimSuffixStr (t.drop fenceJson.length) fencePlain)
  else if fencePlain.isPrefixOf t then
    trimStr (trimSuffixStr (t.drop fencePlain.length) fencePlain)
  else t

def lbrace : Char := Char.ofNat 123

def rbrace : Char := Char.ofNat 125

/-- JSON decoding with salvage (lines 227-245): direct `json.Unmarshal`
(the abstract `decode`), then the first-to-last-brace substring retry;
every failing branch carries the response text. -/
def parseNewsResponse (decode : GoStr → Option NewsResponse) (t : GoStr) :
    Except ClientError NewsResponse :=
  match decode t with
  | some r => .ok r
  | none =>
    match firstIndexOf lbrace t with
    | none => .error (.parseFailed t)
    | some jsonStart =>
      match lastIndexOf rbrace t with
      | none => .error (.parseFailed t)
      | some jsonEnd =>
        if jsonStart < jsonEnd then
          match decode ((t.drop jsonStart).take (jsonEnd + 1 - jsonStart)) with
          | some r => .ok r
          | none => .error (.parseFailed t)
        else .error (.parseFailed t)

/-- `maxArticles` of `Client.ProcessNewsByType` lines 71-76. -/
def maxArticlesFor (newsType : GoStr) : Nat :=
  if newsType = strGlobal then 20 else 15

/-- Summary cap before serialization, lines 90-94. -/
def capSummary200 (it : NewsItem) : NewsItem :=
  if 200 < it.summary.length then { it with summary := it.summary.take 197 ++ "...".toList }
  else it

/-- `Client.ProcessNewsByType` (client.go lines 63-263). `decode` stands
for `json.Unmarshal` into `models.NewsResponse`; `service` for the
Gemini generate-content call (its reply may depend on the shaped input
items). -/
def processNewsByType (decode : GoStr → Option NewsResponse)
    (maxNewsItems : Nat) (service : List NewsItem → ServiceOutcome)
    (newsItems : List NewsItem) (newsType : GoStr) :
    Except ClientError NewsResponse :=
  if newsItems = [] then .ok { news := [], tokenUsage := none }
  else
    let items1 :=
      if maxArticlesFor newsType < newsItems.length then newsItems.take (maxArticlesFor newsType)
      else newsItems
    let items2 := items1.map capSummary200
    match service items2 with
    | .fail => .error .generateFailed
    | .noCandidates => .error .noCandidates
    | .reply text usage =>
      let responseText := trimStr text
      if responseText = [] then .error .emptyResponse
      else
        match parseNewsResponse decode (stripFences responseText) with
        | .error e => .error e
        | .ok nr =>
          if nr.news = [] then .error .noNews
          else
            let news2 :=
              if maxNewsItems < nr.news.length then nr.news.take maxNewsItems else nr.news
            .ok { news := news2, tokenUsage := usage }

def unknownSource : GoStr := "Unknown".toList

/-- The per-item validation loop of `Processor.ProcessNewsItemsByType`
lines 59-78: drop empty title, drop empty URL, backfill empty summary
from the title, default empty source to "Unknown". -/
def validateNews : List NewsItem → List NewsItem
  | [] => []
  | it :: rest =>
    if it.title = [] then validateNews rest
    else if it.url = [] then validateNews rest
    else
      { it with
        summary := if it.summary = [] then it.title else it.summary
        , source := if it.source = [] then unknownSource else it.source } :: validateNews rest

/-- `Processor.ProcessNewsItemsByType` (processor.go lines 44-85). -/
def processNewsItemsByType (decode : GoStr → Option NewsResponse)
    (maxNewsItems : Nat) (service : List NewsItem → ServiceOutcome)
    (newsItems : List NewsItem) (newsType : GoStr) :
    Except ClientError NewsResponse :=
  if newsItems = [] then .ok { news := [], tokenUsage := none }
  else
    match processNewsByType decode maxNewsItems service newsItems newsType with
    | .error e => .error e
    | .ok resp => .ok { resp with news := validateNews resp.news }

/-! ## Job Orchestrator (`internal/config/config.go`, scheduler part) -/

/-- The scheduler's mutex-protected run state: the `running` flag plus a
ghost counter of pipeline executions currently in progress (incremented
when a trigger is accepted, decremented when the deferred release
runs). -/
structure SchedState where
  running : Bool
  activeRuns : Nat
deriving DecidableEq

/-- Outcome of a trigger attempt. -/
inductive TriggerOutcome where
  | started
  | alreadyRunning
deriving DecidableEq

/-- The guard of `Scheduler.RunManualJobByType` lines 239-245: under the
mutex, a set `running` flag rejects with the already-running error;
otherwise the flag is set and the pipeline execution begins. -/
def runManualJobGuard (s : SchedState) : SchedState × TriggerOutcome :=
  if s.running then (s, .alreadyRunning)
  else ({ running := true, activeRuns := s.activeRuns + 1 }, .started)

/-- The guard of the scheduled `Scheduler.runNewsJob` lines 258-265:
under the same mutex, a set `running` flag skips the execution;
otherwise the flag is set and the pipeline execution begins. -/
def runNewsJobGuard (s : SchedState) : SchedState × TriggerOutcome :=
  if s.running then (s, .alreadyRunning)
  else ({ running := true, activeRuns := s.activeRuns + 1 }, .started)

/-- The deferred release (lines 247-251 and 267-272): clear the flag,
one execution ends. -/
def finishRun (s : SchedState) : SchedState :=
  { running := false, activeRuns := s.activeRuns - 1 }

/-- Interleaving semantics of the scheduler's shared state: each step is
one mutex-protected critical section (a manual trigger, a scheduled
trigger, or a run finishing). -/
inductive SchedStep : SchedState → SchedState → Prop
  | manual (s : SchedState) : SchedStep s (runManualJobGuard s).1
  | sched (s : SchedState) : SchedStep s (runNewsJobGuard s).1
  | finish (s : SchedState) : s.running = true → SchedStep s (finishRun s)

/-- The state at process start (`Scheduler.New`). -/
def initialSched : SchedState := { running := false, activeRuns := 0 }

/-- States reachable from process start by any interleaving. -/
def SchedReachable : SchedState → Prop :=
  Relation.ReflTransGen SchedStep initialSched

/-- `models.JobStatus` as mutated by the scheduler (the Go `NextRun`
field is a formatted timestamp string; it is modelled as the instant it
denotes, in seconds of local wall-clock time). -/
structure JobStatusRec where
  status : GoStr
  newsCount : Nat
  lastRun : Nat
  nextRun : Nat
  errMsg : GoStr
deriving DecidableEq

/-- `Scheduler.updateJobStatus` (config.go lines 378-386). -/
def updateJobStatusRec (st : JobStatusRec) (now : Nat) (status : GoStr)
    (newsCount : Nat) (errMsg : GoStr) : JobStatusRec :=
  { st with lastRun := now, status := status, newsCount := newsCount, errMsg := errMsg }

def strFailed : GoStr := "failed".toList

def strCompleted : GoStr := "completed".toList

def strSuccess : GoStr := "success".toList

/-- How one pipeline execution can end (the stage outcomes of
`executeNewsJobByType`, config.go lines 297-359). -/
inductive RunOutcome where
  | scrapeFailed (msg : GoStr)
  | scrapeEmpty (msg : GoStr)
  | aiFailed (msg : GoStr)
  | aiEmpty (msg : GoStr)
  | deliveryFailed (count : Nat) (msg : GoStr)
  | succeeded (count : Nat)
deriving DecidableEq

/-- The status-record effect of `Scheduler.executeNewsJobByType`
(config.go lines 297-359): every branch overwrites status, count, error
text and last-run time; none touches `NextRun`. -/
def executeNewsJobByType (st : JobStatusRec) (out : RunOutcome) (endTime : Nat) :
    JobStatusRec :=
  match out with
  | .scrapeFailed msg => updateJobStatusRec st endTime strFailed 0 msg
  | .scrapeEmpty msg => updateJobStatusRec st endTime strCompleted 0 msg
  | .aiFailed msg => updateJobStatusRec st endTime strFailed 0 msg
  | .aiEmpty msg => updateJobStatusRec st endTime strCompleted 0 msg
  | .deliveryFailed n msg => updateJobStatusRec st endTime strFailed n msg
  | .succeeded n => updateJobStatusRec st endTime strSuccess n []

def secondsPerDay : Nat := 86400

def eightAM : Nat := 8 * 3600

/-- The next-run computation of `Scheduler.updateNextRunTime` (config.go
lines 388-408): today's 08:00 in the configured zone, plus a day when
`now.Hour() >= 8`. `now` is in seconds of local wall-clock time
(Asia/Jakarta has a fixed UTC offset, so local time is linear and
adding 24h advances exactly one calendar day). -/
def nextRunTimeCalc (now : Nat) : Nat :=
  let todayEight := now / secondsPerDay * secondsPerDay + eightAM
  if 8 ≤ now % secondsPerDay / 3600 then todayEight + secondsPerDay else todayEight

/-- `Scheduler.updateNextRunTime`: store the recomputed next-run instant. -/
def updateNextRunTime (st : JobStatusRec) (now : Nat) : JobStatusRec :=
  { st with nextRun := nextRunTimeCalc now }

/-- Status effect of an accepted `Scheduler.RunManualJobByType` (lines
238-254): it executes the pipeline and returns; `updateNextRunTime` is
not called on this path. -/
def runManualJobByType (st : JobStatusRec) (out : RunOutcome) (endTime : Nat) :
    JobStatusRec :=
  executeNewsJobByType st out endTime

/-- Status effect of an accepted scheduled `Scheduler.runNewsJob` (lines
257-289): execute the pipeline, then the deferred `updateNextRunTime`
recomputes the next-run instant. -/
def runNewsJob (st : JobStatusRec) (out : RunOutcome) (endTime : Nat) :
    JobStatusRec :=
  updateNextRunTime (executeNewsJobByType st out endTime) endTime

/-! ## Lemmas about the string model -/

theorem replaceAllGo_length_le (p r : GoStr) (hle : r.length ≤ p.length) :
    ∀ fuel s, (replaceAllGo p r fuel s).length ≤ s.length := by
  intro fuel
  induction fuel with
  | zero => intro s; simp [replaceAllGo]
  | succ n ih =>
    intro s
    match s with
    | [] => simp [replaceAllGo]
    | c :: t =>
      rw [replaceAllGo]
      split
      · next h =>
        rw [Bool.and_eq_true] at h
        have hp : 0 < p.length := by
          rcases h with ⟨h1, _⟩
          cases p with
          | nil => simp at h1
          | cons _ _ => simp
        have hpre : p <+: c :: t := List.isPrefixOf_iff_prefix.mp h.2
        have hlen : p.length ≤ t.length + 1 := by simpa using hpre.length_le
        have h1 := ih (List.drop (p.length - 1) t)
        have h2 : (List.drop (p.length - 1) t).length = t.length - (p.length - 1) :=
          List.length_drop _ _
        simp only [List.length_append, List.length_cons]
        omega
      · next =>
        have h1 := ih t
        simp only [List.length_cons]
        omega

theorem replaceAllGo_twoSpace_lt :
    ∀ fuel s, containsSub twoSpace s = true → s.length ≤ fuel →
      (replaceAllGo twoSpace oneSpace fuel s).length < s.length := by
  intro fuel
  induction fuel with
  | zero =>
    intro s hc hle
    have hs : s = [] := List.length_eq_zero.mp (Nat.le_zero.mp hle)
    subst hs
    simp [containsSub, twoSpace] at hc
  | succ n ih =>
    intro s hc hle
    match s with
    | [] => simp [containsSub, twoSpace] at hc
    | c :: t =>
      rw [replaceAllGo]
      split
      · next h =>
        rw [Bool.and_eq_true] at h
        have hpre : twoSpace <+: c :: t := List.isPrefixOf_iff_prefix.mp h.2
        obtain ⟨rest, hrest⟩ := hpre
        have ht : t.length = rest.length + 1 := by
          have := congrArg List.length hrest
          simp [twoSpace] at this
          simp [← this]
        have hrec := replaceAllGo_length_le twoSpace oneSpace
          (by simp [twoSpace, oneSpace]) n (List.drop (twoSpace.length - 1) t)
        have hd : (List.drop (twoSpace.length - 1) t).length = t.length - 1 := by
          simp [twoSpace, List.length_drop]
        have ho : oneSpace.length = 1 := rfl
        simp only [List.length_append, List.length_cons]
        omega
      · next h =>
        have hct : containsSub twoSpace t = true := by
          rw [containsSub, Bool.or_eq_true] at hc
          rcases hc with hc1 | hc2
          · exact absurd (by rw [Bool.and_eq_true]; exact ⟨by decide, hc1⟩) h
          · exact hc2
        have := ih t hct (by simp only [List.length_cons] at hle; omega)
        simp only [List.length_cons]
        omega

theorem collapseSpacesGo_no_double :
    ∀ fuel s, s.length ≤ fuel → containsSub twoSpace (collapseSpacesGo fuel s) = false := by
  intro fuel
  induction fuel with
  | zero =>
    intro s hle
    have hs : s = [] := List.length_eq_zero.mp (Nat.le_zero.mp hle)
    subst hs
    simp [collapseSpacesGo, containsSub, twoSpace]
  | succ n ih =>
    intro s hle
    rw [collapseSpacesGo]
    split
    · next h =>
      refine ih _ ?_
      have := replaceAllGo_twoSpace_lt s.length s h (le_refl _)
      have h2 := this
      unfold replaceAll
      omega
    · next h =>
      simpa using h

theorem mem_replaceAllGo (p r : GoStr) (c : Char) :
    ∀ fuel s, c ∈ replaceAllGo p r fuel s → c ∈ s ∨ c ∈ r := by
  intro fuel
  induction fuel with
  | zero => intro s h; exact .inl h
  | succ n ih =>
    intro s h
    match s with
    | [] => simp [replaceAllGo] at h
    | a :: t =>
      rw [replaceAllGo] at h
      split at h
      · rcases List.mem_append.mp h with hr | hrec
        · exact .inr hr
        · rcases ih _ hrec with hs | hr
          · exact .inl (List.mem_cons_of_mem a (List.drop_subset _ _ hs))
          · exact .inr hr
      · rcases List.mem_cons.mp h with rfl | hrec
        · exact .inl (List.mem_cons_self _ _)
        · rcases ih _ hrec with hs | hr
          · exact .inl (List.mem_cons_of_mem _ hs)
          · exact .inr hr

theorem notMem_replaceAllGo_single (a : Char) (r : GoStr) (ha : a ∉ r) :
    ∀ fuel s, s.length ≤ fuel → a ∉ replaceAllGo [a] r fuel s := by
  intro fuel
  induction fuel with
  | zero =>
    intro s hle
    have hs : s = [] := List.length_eq_zero.mp (Nat.le_zero.mp hle)
    subst hs
    simp [replaceAllGo]
  | succ n ih =>
    intro s hle
    match s with
    | [] => simp [replaceAllGo]
    | c :: t =>
      rw [replaceAllGo]
      split
      · next h =>
        intro hmem
        rcases List.mem_append.mp hmem with h1 | h2
        · exact ha h1
        · have hlen : t.length ≤ n := by
            simp only [List.length_cons] at hle; omega
          exact ih t hlen (by simpa using h2)
      · next h =>
        intro hmem
        rcases List.mem_cons.mp hmem with rfl | h2
        · exact h (by simp [List.isPrefixOf])
        · exact ih t (by simp only [List.length_cons] at hle; omega) h2

theorem mem_collapseSpacesGo (c : Char) :
    ∀ fuel s, c ∈ collapseSpacesGo fuel s → c ∈ s ∨ c = ' ' := by
  intro fuel
  induction fuel with
  | zero => intro s h; exact .inl h
  | succ n ih =>
    intro s h
    rw [collapseSpacesGo] at h
    split at h
    · rcases ih _ h with hs | hsp
      · rcases mem_replaceAllGo twoSpace oneSpace c _ _ hs with h1 | h2
        · exact .inl h1
        · simp [oneSpace] at h2
          exact .inr h2
      · exact .inr hsp
    · exact .inl h

theorem mem_trimStr (c : Char) (s : GoStr) (h : c ∈ trimStr s) : c ∈ s := by
  unfold trimStr at h
  rw [List.mem_reverse] at h
  have h1 : c ∈ (s.dropWhile isSpaceChar).reverse := (List.dropWhile_sublist _).mem h
  rw [List.mem_reverse] at h1
  exact (List.dropWhile_sublist _).mem h1

/-! ## Lemmas about the Feed Fetcher and the Aggregator -/

theorem scrapeRSSFeedLoop_recency (srcName newsType : GoStr) (now : Int) :
    ∀ (entries : List FeedEntry) (acc : List NewsItem),
      (∀ it ∈ acc, ¬ it.publishedAt < now - 24) →
      ∀ it ∈ scrapeRSSFeedLoop srcName newsType now entries acc, ¬ it.publishedAt < now - 24 := by
  intro entries
  induction entries with
  | nil =>
    intro acc hacc
    simpa [scrapeRSSFeedLoop] using hacc
  | cons e rest ih =>
    intro acc hacc
    rw [scrapeRSSFeedLoop]
    split
    · exact ih acc hacc
    · next hrecent =>
      split
      · exact ih acc hacc
      · have hacc2 : ∀ it ∈ acc ++ [mkScrapedItem srcName now e],
            ¬ it.publishedAt < now - 24 := by
          intro it hit
          rcases List.mem_append.mp hit with h1 | h2
          · exact hacc it h1
          · have : it = mkScrapedItem srcName now e := by simpa using h2
            subst this
            simpa [mkScrapedItem] using hrecent
        dsimp only
        split
        · exact hacc2
        · exact ih _ hacc2

theorem scrapeRSSFeedLoop_summary (srcName newsType : GoStr) (now : Int) :
    ∀ (entries : List FeedEntry) (acc : List NewsItem),
      (∀ it ∈ acc, ∃ d, it.summary = capSummary300 (cleanText d)) →
      ∀ it ∈ scrapeRSSFeedLoop srcName newsType now entries acc,
        ∃ d, it.summary = capSummary300 (cleanText d) := by
  intro entries
  induction entries with
  | nil =>
    intro acc hacc
    simpa [scrapeRSSFeedLoop] using hacc
  | cons e rest ih =>
    intro acc hacc
    rw [scrapeRSSFeedLoop]
    split
    · exact ih acc hacc
    · split
      · exact ih acc hacc
      · have hacc2 : ∀ it ∈ acc ++ [mkScrapedItem srcName now e],
            ∃ d, it.summary = capSummary300 (cleanText d) := by
          intro it hit
          rcases List.mem_append.mp hit with h1 | h2
          · exact hacc it h1
          · have : it = mkScrapedItem srcName now e := by simpa using h2
            subst this
            refine ⟨e.description, ?_⟩
            dsimp only [mkScrapedItem]
        dsimp only
        split
        · exact hacc2
        · exact ih _ hacc2

theorem capSummary300_length (s : GoStr) : (capSummary300 s).length ≤ 300 := by
  unfold capSummary300
  split
  · next h =>
    simp only [List.length_append, List.length_take]
    have : ("...".toList : GoStr).length = 3 := rfl
    omega
  · next h => omega

theorem mergeScraped_cons_ok (l : List NewsItem) (rest : List (Except GoStr (List NewsItem))) :
    mergeScraped (Except.ok l :: rest) = l ++ mergeScraped rest := rfl

theorem mergeScraped_cons_error (e : GoStr) (rest : List (Except GoStr (List NewsItem))) :
    mergeScraped (Except.error e :: rest) = mergeScraped rest := rfl

theorem mem_mergeScraped {results : List (Except GoStr (List NewsItem))}
    {l : List NewsItem} (hl : Except.ok l ∈ results) {x : NewsItem} (hx : x ∈ l) :
    x ∈ mergeScraped results := by
  induction results with
  | nil => cases hl
  | cons r rest ih =>
    rcases List.mem_cons.mp hl with heq | hmem
    · rw [← heq, mergeScraped_cons_ok]
      exact List.mem_append.mpr (.inl hx)
    · cases r with
      | ok l2 =>
        rw [mergeScraped_cons_ok]
        exact List.mem_append.mpr (.inr (ih hmem))
      | error e =>
        rw [mergeScraped_cons_error]
        exact ih hmem

theorem mem_mergeScraped_exists {results : List (Except GoStr (List NewsItem))}
    {x : NewsItem} (hx : x ∈ mergeScraped results) :
    ∃ l, Except.ok l ∈ results ∧ x ∈ l := by
  induction results with
  | nil => cases hx
  | cons r rest ih =>
    cases r with
    | ok l2 =>
      rw [mergeScraped_cons_ok] at hx
      rcases List.mem_append.mp hx with h1 | h2
      · exact ⟨l2, List.mem_cons_self _ _, h1⟩
      · obtain ⟨l, hl, hxl⟩ := ih h2
        exact ⟨l, List.mem_cons_of_mem _ hl, hxl⟩
    | error e =>
      rw [mergeScraped_cons_error] at hx
      obtain ⟨l, hl, hxl⟩ := ih hx
      exact ⟨l, List.mem_cons_of_mem _ hl, hxl⟩

/-! ## Lemmas about the Curation Engine -/

theorem validateNews_sound :
    ∀ l : List NewsItem, ∀ it ∈ validateNews l, it.title ≠ [] ∧ it.url ≠ [] := by
  intro l
  induction l with
  | nil => intro it h; cases h
  | cons x rest ih =>
    intro it h
    rw [validateNews] at h
    split at h
    · exact ih it h
    · split at h
      · exact ih it h
      · next ht hu =>
        rcases List.mem_cons.mp h with heq | hmem
        · subst heq
          exact ⟨ht, hu⟩
        · exact ih it hmem

theorem validateNews_length_le : ∀ l : List NewsItem, (validateNews l).length ≤ l.length := by
  intro l
  induction l with
  | nil => simp [validateNews]
  | cons x rest ih =>
    rw [validateNews]
    split
    · simp only [List.length_cons]; omega
    · split
      · simp only [List.length_cons]; omega
      · simp only [List.length_cons]; omega

theorem validateNews_mem (l : List NewsItem) (raw : NewsItem) (hmem : raw ∈ l)
    (ht : raw.title ≠ []) (hu : raw.url ≠ []) :
    { raw with
      summary := if raw.summary = [] then raw.title else raw.summary
      , source := if raw.source = [] then unknownSource else raw.source } ∈ validateNews l := by
  induction l with
  | nil => cases hmem
  | cons x rest ih =>
    rw [validateNews]
    rcases List.mem_cons.mp hmem with heq | hmem2
    · subst heq
      rw [if_neg ht, if_neg hu]
      exact List.mem_cons_self _ _
    · split
      · exact ih hmem2
      · split
        · exact ih hmem2
        · exact List.mem_cons_of_mem _ (ih hmem2)

theorem validateNews_nil (l : List NewsItem)
    (h : ∀ it ∈ l, it.title = [] ∨ it.url = []) : validateNews l = [] := by
  induction l with
  | nil => rfl
  | cons x rest ih =>
    rw [validateNews]
    have hx := h x (List.mem_cons_self _ _)
    have hrest : ∀ it ∈ rest, it.title = [] ∨ it.url = [] := by
      intro it hit
      exact h it (List.mem_cons_of_mem _ hit)
    split
    · exact ih hrest
    · next hxt =>
      split
      · exact ih hrest
      · next hxu =>
        rcases hx with h1 | h1
        · exact absurd h1 hxt
        · exact absurd h1 hxu

theorem processNewsByType_ok_length (decode : GoStr → Option NewsResponse) (maxN : Nat)
    (service : List NewsItem → ServiceOutcome) (items : List NewsItem) (newsType : GoStr)
    (resp : NewsResponse)
    (h : processNewsByType decode maxN service items newsType = .ok resp) :
    resp.news.length ≤ maxN ∨ resp.news = [] := by
  unfold processNewsByType at h
  split at h
  · injection h with h2
    subst h2
    exact .inr rfl
  · dsimp only at h
    split at h
    · cases h
    · cases h
    · split at h
      · cases h
      · split at h
        · cases h
        · split at h
          · cases h
          · injection h with h2
            subst h2
            left
            dsimp only
            split
            · next hlen =>
              simp only [List.length_take]
              omega
            · next hlen => omega

theorem processNewsItemsByType_of_ok (decode : GoStr → Option NewsResponse) (maxN : Nat)
    (service : List NewsItem → ServiceOutcome) (items : List NewsItem) (newsType : GoStr)
    (resp0 : NewsResponse) (hitems : items ≠ [])
    (h : processNewsByType decode maxN service items newsType = .ok resp0) :
    processNewsItemsByType decode maxN service items newsType =
      .ok { resp0 with news := validateNews resp0.news } := by
  unfold processNewsItemsByType
  rw [if_neg hitems, h]

theorem processNewsItemsByType_ok_cases (decode : GoStr → Option NewsResponse) (maxN : Nat)
    (service : List NewsItem → ServiceOutcome) (items : List NewsItem) (newsType : GoStr)
    (resp : NewsResponse)
    (h : processNewsItemsByType decode maxN service items newsType = .ok resp) :
    resp.news = [] ∨
      ∃ resp0, processNewsByType decode maxN service items newsType = .ok resp0 ∧
        resp.news = validateNews resp0.news := by
  unfold processNewsItemsByType at h
  split at h
  · injection h with h2
    subst h2
    exact .inl rfl
  · split at h
    · cases h
    · next resp0 heq =>
      injection h with h2
      subst h2
      exact .inr ⟨resp0, heq, rfl⟩

theorem processNewsByType_reply_decoded (decode : GoStr → Option NewsResponse) (maxN : Nat)
    (usage : Option TokenUsage) (items : List NewsItem) (newsType : GoStr) (text : GoStr)
    (r : NewsResponse) (hitems : items ≠ []) (htext : trimStr text ≠ [])
    (hdec : decode (stripFences (trimStr text)) = some r) :
    processNewsByType decode maxN (fun _ => .reply text usage) items newsType =
      (if r.news = [] then .error .noNews
       else .ok { news := if maxN < r.news.length then r.news.take maxN else r.news
                , tokenUsage := usage }) := by
  unfold processNewsByType
  rw [if_neg hitems]
  dsimp only
  rw [if_neg htext]
  simp only [parseNewsResponse, hdec]

/-! ## Lemmas about the Job Orchestrator -/

theorem sched_invariant :
    ∀ s, SchedReachable s → s.activeRuns = if s.running then 1 else 0 := by
  intro s h
  induction h with
  | refl => rfl
  | tail hab hbc ih =>
    rename_i b c
    cases hbc with
    | manual =>
      unfold runManualJobGuard
      by_cases hb : b.running
      · rw [if_pos hb]
        exact ih
      · rw [if_neg hb]
        rw [Bool.not_eq_true] at hb
        rw [hb] at ih
        simpa using ih
    | sched =>
      unfold runNewsJobGuard
      by_cases hb : b.running
      · rw [if_pos hb]
        exact ih
      · rw [if_neg hb]
        rw [Bool.not_eq_true] at hb
        rw [hb] at ih
        simpa using ih
    | finish hb =>
      unfold finishRun
      rw [hb] at ih
      simp only [if_true] at ih
      simp [ih]

/-! ## `cleanText` postconditions -/

theorem cleanText_normalized (t : GoStr) :
    ('\n' ∉ cleanText t) ∧ ('\t' ∉ cleanText t) ∧
    containsSub twoSpace (cleanText t) = false := by
  have key : ∀ u : GoStr,
      ('\n' ∉ collapseSpaces (replaceAll ['\t'] oneSpace (replaceAll ['\n'] oneSpace u))) ∧
      ('\t' ∉ collapseSpaces (replaceAll ['\t'] oneSpace (replaceAll ['\n'] oneSpace u))) ∧
      containsSub twoSpace
        (collapseSpaces (replaceAll ['\t'] oneSpace (replaceAll ['\n'] oneSpace u))) = false := by
    intro u
    set t4 := replaceAll ['\n'] oneSpace u with ht4
    set t5 := replaceAll ['\t'] oneSpace t4 with ht5
    have hnl4 : '\n' ∉ t4 :=
      notMem_replaceAllGo_single '\n' oneSpace (by decide) u.length u (le_refl _)
    have hnl5 : '\n' ∉ t5 := by
      intro h
      rcases mem_replaceAllGo ['\t'] oneSpace '\n' t4.length t4 h with h1 | h2
      · exact hnl4 h1
      · exact absurd h2 (by decide)
    have htab5 : '\t' ∉ t5 :=
      notMem_replaceAllGo_single '\t' oneSpace (by decide) t4.length t4 (le_refl _)
    refine ⟨?_, ?_, ?_⟩
    · intro h
      rcases mem_collapseSpacesGo '\n' t5.length t5 h with h1 | h2
      · exact hnl5 h1
      · exact absurd h2 (by decide)
    · intro h
      rcases mem_collapseSpacesGo '\t' t5.length t5 h with h1 | h2
      · exact htab5 h1
      · exact absurd h2 (by decide)
    · exact collapseSpacesGo_no_double t5.length t5 (le_refl _)
  have hinst := key (trimStr (htmlTags.foldl (fun acc tag => replaceAll tag [] acc)
    (primaryTagTable.foldl (fun acc pr => replaceAll pr.1 pr.2 acc) t)))
  simpa only [cleanText] using hinst

/-! ## The claims -/

/-- C10: for an empty input item list, both `Processor.ProcessNewsItemsByType`
and `Client.ProcessNewsByType` return a successful result with zero news
items and no usage data — and they do so for every possible behaviour of
the external ranking service, i.e. without consulting it — rather than
returning an error. -/
theorem claim_C10 (decode : GoStr → Option NewsResponse) (maxN : Nat)
    (service : List NewsItem → ServiceOutcome) (newsType : GoStr) :
    processNewsByType decode maxN service [] newsType =
      .ok { news := [], tokenUsage := none } ∧
    processNewsItemsByType decode maxN service [] newsType =
      .ok { news := [], tokenUsage := none } :=
  ⟨rfl, rfl⟩

/-- C3: for every non-empty input item list and every ranking-service
response, the curation operation (`Client.ProcessNewsByType` and
`Processor.ProcessNewsItemsByType`) returns at most `maxNewsItems`
items, truncating any excess the external service returns. -/
theorem claim_C3 (decode : GoStr → Option NewsResponse) (maxN : Nat)
    (service : List NewsItem → ServiceOutcome) (items : List NewsItem) (newsType : GoStr)
    ( _hitems : items ≠ []) :
    (∀ resp, processNewsByType decode maxN service items newsType = .ok resp →
      resp.news.length ≤ maxN) ∧
    (∀ resp, processNewsItemsByType decode maxN service items newsType = .ok resp →
      resp.news.length ≤ maxN) := by
  have hclient : ∀ resp, processNewsByType decode maxN service items newsType = .ok resp →
      resp.news.length ≤ maxN := by
    intro resp h
    rcases processNewsByType_ok_length decode maxN service items newsType resp h with h1 | h1
    · exact h1
    · simp [h1]
  refine ⟨hclient, ?_⟩
  intro resp h
  rcases processNewsItemsByType_ok_cases decode maxN service items newsType resp h with
    h1 | ⟨resp0, h0, hv⟩
  · simp [h1]
  · rw [hv]
    have h2 := validateNews_length_le resp0.news
    have h3 := hclient resp0 h0
    omega

/-- C3 witness: a concrete non-empty run through the full pipeline whose
curated output obeys the bound. -/
theorem claim_C3_witness :
    (({ news := [{ title := ['a'], summary := ['s'], url := ['u'], source := ['w']
                 , publishedAt := 0 }], tokenUsage := none } : NewsResponse)).news.length ≤ 5 :=
  (claim_C3
    (fun _ => some { news := [{ title := ['a'], summary := ['s'], url := ['u'], source := ['w']
                              , publishedAt := 0 }], tokenUsage := none })
    5 (fun _ => .reply ['x'] none)
    [{ title := ['t'], summary := ['s'], url := ['u'], source := ['w'], publishedAt := 0 }]
    strAI (by decide)).2
    { news := [{ title := ['a'], summary := ['s'], url := ['u'], source := ['w']
               , publishedAt := 0 }], tokenUsage := none }
    (by decide)

/-- C4: every item of a successful curation result has a non-empty title
and a non-empty URL; and every parsed item with non-empty title and URL
survives validation with its empty summary backfilled from the title and
its empty source defaulted to "Unknown". -/
theorem claim_C4 :
    (∀ (decode : GoStr → Option NewsResponse) (maxN : Nat)
      (service : List NewsItem → ServiceOutcome) (items : List NewsItem) (newsType : GoStr)
      (resp : NewsResponse),
      processNewsItemsByType decode maxN service items newsType = .ok resp →
      ∀ it ∈ resp.news, it.title ≠ [] ∧ it.url ≠ []) ∧
    (∀ (l : List NewsItem) (raw : NewsItem), raw ∈ l → raw.title ≠ [] → raw.url ≠ [] →
      { raw with
        summary := if raw.summary = [] then raw.title else raw.summary
        , source := if raw.source = [] then unknownSource else raw.source } ∈ validateNews l) := by
  constructor
  · intro decode maxN service items newsType resp h it hit
    rcases processNewsItemsByType_ok_cases decode maxN service items newsType resp h with
      h1 | ⟨resp0, _, hv⟩
    · rw [h1] at hit
      cases hit
    · rw [hv] at hit
      exact validateNews_sound resp0.news it hit
  · exact validateNews_mem

/-- C4 witness: one raw item with empty summary and empty source is
repaired and kept; the end-to-end conjunct applied to a concrete run. -/
theorem claim_C4_witness :
    ({ ({ title := ['a'], summary := [], url := ['u'], source := [], publishedAt := 0 }
        : NewsItem) with
      summary := if ([] : GoStr) = [] then ['a'] else []
      , source := if ([] : GoStr) = [] then unknownSource else [] } ∈
      validateNews [{ title := ['a'], summary := [], url := ['u'], source := []
                    , publishedAt := 0 }]) ∧
    (∀ it ∈ ({ news := [{ title := ['a'], summary := ['s'], url := ['u'], source := ['w']
                        , publishedAt := 0 }], tokenUsage := none } : NewsResponse).news,
      it.title ≠ [] ∧ it.url ≠ []) :=
  ⟨claim_C4.2 _ _ (by decide) (by decide) (by decide)
  , claim_C4.1
      (fun _ => some { news := [{ title := ['a'], summary := ['s'], url := ['u'], source := ['w']
                                , publishedAt := 0 }], tokenUsage := none })
      5 (fun _ => .reply ['x'] none)
      [{ title := ['t'], summary := ['s'], url := ['u'], source := ['w'], publishedAt := 0 }]
      strAI _ (by decide)⟩

/-- C6: aggregation fails with `noItemsScraped` carrying the per-source
failures exactly when the merged result of all per-source fetches is
empty; one source succeeding with at least one item makes the whole call
succeed with the union of the successful sources' items, regardless of
other sources failing. -/
theorem claim_C6 (results : List (Except GoStr (List NewsItem))) :
    (mergeScraped results = [] →
      scrapeNewsByType results = .error (.noItemsScraped (scrapeFailures results))) ∧
    (∀ fs, scrapeNewsByType results = .error (.noItemsScraped fs) →
      mergeScraped results = [] ∧ fs = scrapeFailures results) ∧
    (∀ l, Except.ok l ∈ results → l ≠ [] →
      scrapeNewsByType results = .ok (mergeScraped results)) ∧
    (∀ l it, Except.ok l ∈ results → it ∈ l → it ∈ mergeScraped results) := by
  refine ⟨?_, ?_, ?_, ?_⟩
  · intro h
    unfold scrapeNewsByType
    rw [if_pos h]
  · intro fs h
    unfold scrapeNewsByType at h
    dsimp only at h
    split at h
    · next hm =>
      refine ⟨hm, ?_⟩
      injection h with h2
      injection h2 with h3
      exact h3.symm
    · cases h
  · intro l hl hlne
    unfold scrapeNewsByType
    dsimp only
    split
    · next hm =>
      exfalso
      obtain ⟨x, hx⟩ := List.exists_mem_of_ne_nil l hlne
      have hmem := mem_mergeScraped hl hx
      rw [hm] at hmem
      cases hmem
    · rfl
  · intro l it hl hit
    exact mem_mergeScraped hl hit

/-- C6 witness: one failing source plus one succeeding source with one
item: the aggregation succeeds with that item. -/
theorem claim_C6_witness :
    scrapeNewsByType
        [Except.error "boom".toList
        , Except.ok [{ title := ['a'], summary := ['s'], url := ['u'], source := ['w']
                     , publishedAt := 0 }]] =
      .ok (mergeScraped
        [Except.error "boom".toList
        , Except.ok [{ title := ['a'], summary := ['s'], url := ['u'], source := ['w']
                     , publishedAt := 0 }]]) :=
  (claim_C6 _).2.2.1
    [{ title := ['a'], summary := ['s'], url := ['u'], source := ['w'], publishedAt := 0 }]
    (by decide) (by decide)

/-- C5: resilient response parsing. Code-fence wrapping is stripped
before decoding (a fenced body decodes exactly as its trimmed body);
when direct decoding fails but the text has a first opening brace and a
later last closing brace, the substring between them is decoded and a
successful salvage yields the same result a clean JSON body would; when
both the direct decode and the salvage decode fail, the parse returns
the malformed-response error carrying the response text. -/
theorem claim_C5 (decode : GoStr → Option NewsResponse) (raw : GoStr) (r : NewsResponse) :
    (∀ body : GoStr, stripFences (fenceJson ++ (body ++ fencePlain)) = trimStr body) ∧
    (decode (stripFences raw) = some r →
      parseNewsResponse decode (stripFences raw) = .ok r) ∧
    (∀ i j, decode (stripFences raw) = none →
      firstIndexOf lbrace (stripFences raw) = some i →
      lastIndexOf rbrace (stripFences raw) = some j → i < j →
      decode (((stripFences raw).drop i).take (j + 1 - i)) = some r →
      parseNewsResponse decode (stripFences raw) = .ok r) ∧
    (decode (stripFences raw) = none →
      (∀ i j, firstIndexOf lbrace (stripFences raw) = some i →
        lastIndexOf rbrace (stripFences raw) = some j → i < j →
        decode (((stripFences raw).drop i).take (j + 1 - i)) = none) →
      parseNewsResponse decode (stripFences raw) =
        .error (.parseFailed (stripFences raw))) := by
  refine ⟨?_, ?_, ?_, ?_⟩
  · intro body
    unfold stripFences
    have hpre : fenceJson.isPrefixOf (fenceJson ++ (body ++ fencePlain)) = true :=
      List.isPrefixOf_iff_prefix.mpr ⟨body ++ fencePlain, rfl⟩
    rw [if_pos hpre, List.drop_left]
    unfold trimSuffixStr
    have hsuf : fencePlain.isSuffixOf (body ++ fencePlain) = true :=
      List.isSuffixOf_iff_suffix.mpr ⟨body, rfl⟩
    rw [if_pos hsuf]
    have h1 : (body ++ fencePlain).length - fencePlain.length = body.length := by
      simp [List.length_append]
    rw [h1, List.take_left]
  · intro h
    unfold parseNewsResponse
    rw [h]
  · intro i j hnone hfi hla hij hslice
    unfold parseNewsResponse
    simp only [hnone, hfi, hla]
    rw [if_pos hij]
    simp only [hslice]
  · intro hnone hall
    unfold parseNewsResponse
    simp only [hnone]
    cases hfi : firstIndexOf lbrace (stripFences raw) with
    | none => rfl
    | some i =>
      cases hla : lastIndexOf rbrace (stripFences raw) with
      | none => rfl
      | some j =>
        dsimp only
        by_cases hij : i < j
        · rw [if_pos hij]
          simp only [hall i j hfi hla hij]
        · rw [if_neg hij]

/-- C5 witness: a successful direct decode and a total parse failure
carrying the text, at concrete inputs. -/
theorem claim_C5_witness :
    parseNewsResponse (fun t => if t = ['a'] then some { news := [], tokenUsage := none }
      else none) (stripFences ['a']) = .ok { news := [], tokenUsage := none } ∧
    parseNewsResponse (fun _ => none) (stripFences ['x']) =
      .error (.parseFailed (stripFences ['x'])) :=
  ⟨(claim_C5 (fun t => if t = ['a'] then some { news := [], tokenUsage := none } else none)
      ['a'] { news := [], tokenUsage := none }).2.1 (by decide)
  , (claim_C5 (fun _ => none) ['x'] { news := [], tokenUsage := none }).2.2.2 rfl
      (fun _ _ _ _ _ => rfl)⟩

/-- C1: single-flight execution. In every reachable scheduler state at
most one pipeline run is active (the active-run count is 1 exactly when
the `running` flag is set, else 0); a trigger — manual
(`RunManualJobByType`) or scheduled (`runNewsJob`) — arriving while a
run is in progress is rejected immediately, leaves the state unchanged
and starts no second run; and both trigger paths consult the same
mutual-exclusion guard (their guard functions agree on every state). -/
theorem claim_C1 (s : SchedState) (h : SchedReachable s) :
    (s.activeRuns ≤ 1 ∧ s.activeRuns = (if s.running then 1 else 0)) ∧
    (s.running = true →
      runManualJobGuard s = (s, .alreadyRunning) ∧
      runNewsJobGuard s = (s, .alreadyRunning)) ∧
    (∀ s2 : SchedState, runManualJobGuard s2 = runNewsJobGuard s2) := by
  have inv := sched_invariant s h
  refine ⟨⟨?_, inv⟩, ?_, fun _ => rfl⟩
  · rw [inv]
    split <;> omega
  · intro hr
    constructor
    · unfold runManualJobGuard
      rw [if_pos hr]
    · unfold runNewsJobGuard
      rw [if_pos hr]

/-- C1 witness: the state reached by one accepted manual trigger is
reachable, has one active run, and rejects both kinds of trigger. -/
theorem claim_C1_witness :
    ({ running := true, activeRuns := 1 } : SchedState).activeRuns ≤ 1 ∧
    runManualJobGuard { running := true, activeRuns := 1 } =
      ({ running := true, activeRuns := 1 }, .alreadyRunning) ∧
    runNewsJobGuard { running := true, activeRuns := 1 } =
      ({ running := true, activeRuns := 1 }, .alreadyRunning) := by
  have hreach : SchedReachable { running := true, activeRuns := 1 } :=
    Relation.ReflTransGen.single (SchedStep.manual initialSched)
  have h := claim_C1 { running := true, activeRuns := 1 } hreach
  exact ⟨h.1.1, (h.2.1 rfl).1, (h.2.1 rfl).2⟩

/-- C2 counterexample: a ranking response that parses to one item whose
title is empty. Post-decode validation drops every item, yet the
curation operation succeeds with an empty result instead of surfacing
an error — refuting the claim that it "surfaces an EmptyCuration error
to its caller rather than succeeding with an empty result". -/
theorem claim_C2_counterexample :
    processNewsItemsByType
        (fun _ => some { news := [{ title := [], summary := ['s'], url := ['u']
                                  , source := ['w'], publishedAt := 0 }], tokenUsage := none })
        5 (fun _ => .reply ['x'] none)
        [{ title := ['t'], summary := ['s'], url := ['u'], source := ['w'], publishedAt := 0 }]
        strAI =
      .ok { news := [], tokenUsage := none } := by
  decide

/-- C2 amended: the empty-curation error is raised only when the decoded
response already contains zero items; when the decoded response has
items but post-decode validation drops all of them (each has an empty
title or an empty URL), `ProcessNewsItemsByType` succeeds with an empty
result instead. -/
theorem claim_C2_amended (decode : GoStr → Option NewsResponse) (maxN : Nat)
    (usage : Option TokenUsage) (items : List NewsItem) (newsType : GoStr)
    (text : GoStr) (r : NewsResponse)
    (hitems : items ≠ []) (htext : trimStr text ≠ [])
    (hdec : decode (stripFences (trimStr text)) = some r) :
    (r.news = [] →
      processNewsItemsByType decode maxN (fun _ => .reply text usage) items newsType =
        .error .noNews) ∧
    (r.news ≠ [] → (∀ it ∈ r.news, it.title = [] ∨ it.url = []) →
      processNewsItemsByType decode maxN (fun _ => .reply text usage) items newsType =
        .ok { news := [], tokenUsage := usage }) := by
  have hc := processNewsByType_reply_decoded decode maxN usage items newsType text r
    hitems htext hdec
  constructor
  · intro hempty
    rw [if_pos hempty] at hc
    unfold processNewsItemsByType
    rw [if_neg hitems, hc]
  · intro hne hbad
    rw [if_neg hne] at hc
    have hstep := processNewsItemsByType_of_ok decode maxN (fun _ => .reply text usage)
      items newsType _ hitems hc
    rw [hstep]
    have hval : validateNews (if maxN < r.news.length then r.news.take maxN else r.news)
        = [] := by
      apply validateNews_nil
      intro it hit
      apply hbad
      split at hit
      · exact List.take_subset _ _ hit
      · exact hit
    simp only [hval]

/-- C2 amended witness: a concrete response whose single decoded item
has an empty title yields a successful empty curation. -/
theorem claim_C2_amended_witness :
    processNewsItemsByType
        (fun _ => some { news := [{ title := [], summary := ['s'], url := ['u']
                                  , source := ['q'], publishedAt := 1 }], tokenUsage := none })
        7 (fun _ => .reply ['y'] none)
        [{ title := ['t'], summary := ['s'], url := ['u'], source := ['w'], publishedAt := 1 }]
        strGlobal =
      .ok { news := [], tokenUsage := none } :=
  (claim_C2_amended
    (fun _ => some { news := [{ title := [], summary := ['s'], url := ['u']
                              , source := ['q'], publishedAt := 1 }], tokenUsage := none })
    7 none
    [{ title := ['t'], summary := ['s'], url := ['u'], source := ['w'], publishedAt := 1 }]
    strGlobal ['y']
    { news := [{ title := [], summary := ['s'], url := ['u'], source := ['q']
               , publishedAt := 1 }], tokenUsage := none }
    (by decide) (by decide) (by decide)).2 (by decide) (by decide)

/-- C7 counterexample: a manual run that completes at local time 100000
leaves `nextRun` at its previous value 0, which is neither strictly in
the future nor the next occurrence of the daily 08:00 — refuting the
claim for the manually-triggered path. -/
theorem claim_C7_counterexample :
    (runManualJobByType
        { status := "initialized".toList, newsCount := 0, lastRun := 0, nextRun := 0
        , errMsg := [] } (.succeeded 3) 100000).nextRun = 0 ∧
    ¬ (100000 < (runManualJobByType
        { status := "initialized".toList, newsCount := 0, lastRun := 0, nextRun := 0
        , errMsg := [] } (.succeeded 3) 100000).nextRun) ∧
    (runManualJobByType
        { status := "initialized".toList, newsCount := 0, lastRun := 0, nextRun := 0
        , errMsg := [] } (.succeeded 3) 100000).nextRun ≠ nextRunTimeCalc 100000 := by
  decide

/-- C7 amended: after every *scheduled* run — success or failure — the
recorded next-run instant equals the recomputed next occurrence of the
daily 08:00 wall-clock time, which is strictly in the future relative
to the run's completion time (rolling to the next day when 08:00 has
passed); a *manual* run leaves the recorded next-run instant unchanged
(the manual path never recomputes it). -/
theorem claim_C7_amended (st : JobStatusRec) (out : RunOutcome) (endTime : Nat) :
    (runNewsJob st out endTime).nextRun = nextRunTimeCalc endTime ∧
    endTime < nextRunTimeCalc endTime ∧
    nextRunTimeCalc endTime % secondsPerDay = eightAM ∧
    (∀ t2, endTime < t2 → t2 % secondsPerDay = eightAM → nextRunTimeCalc endTime ≤ t2) ∧
    (runManualJobByType st out endTime).nextRun = st.nextRun := by
  refine ⟨rfl, ?_, ?_, ?_, ?_⟩
  · unfold nextRunTimeCalc secondsPerDay eightAM
    dsimp only
    split <;> omega
  · unfold nextRunTimeCalc secondsPerDay eightAM
    dsimp only
    split <;> omega
  · intro t2 h1 h2
    unfold nextRunTimeCalc secondsPerDay eightAM
    unfold secondsPerDay eightAM at h2
    dsimp only
    split <;> omega
  · unfold runManualJobByType executeNewsJobByType updateJobStatusRec
    cases out <;> rfl

/-- C7 amended witness: scheduled run ending at local time 100000
records next run 115200 (= next day's 08:00), strictly in the future;
115200 is minimal among 08:00 instants after 100000; the manual run
keeps the old value. -/
theorem claim_C7_amended_witness :
    (runNewsJob
        { status := "initialized".toList, newsCount := 0, lastRun := 0, nextRun := 0
        , errMsg := [] } (.succeeded 3) 100000).nextRun = nextRunTimeCalc 100000 ∧
    (100000 : Nat) < nextRunTimeCalc 100000 ∧
    nextRunTimeCalc 100000 ≤ 115200 ∧
    (runManualJobByType
        { status := "initialized".toList, newsCount := 0, lastRun := 0, nextRun := 0
        , errMsg := [] } (.succeeded 3) 100000).nextRun = 0 := by
  have h := claim_C7_amended
    { status := "initialized".toList, newsCount := 0, lastRun := 0, nextRun := 0
    , errMsg := [] } (.succeeded 3) 100000
  exact ⟨h.1, h.2.1, h.2.2.2.1 115200 (by decide) (by decide), h.2.2.2.2⟩

/-- C8: recency. Every item returned by the per-source fetch has a
publish timestamp within the 24-unit recency window measured at fetch
time (never strictly older than `now - 24`); an entry with no parsable
publish or update timestamp is assigned `now`, which the recency check
retains; and aggregation preserves the window (every aggregated item
comes from some successful source fetch). -/
theorem claim_C8 :
    (∀ (srcName newsType : GoStr) (now : Int) (entries : List FeedEntry),
      ∀ it ∈ scrapeRSSFeed srcName newsType now entries, ¬ it.publishedAt < now - 24) ∧
    (∀ (now : Int) (e : FeedEntry), e.publishedParsed = none → e.updatedParsed = none →
      entryTime now e = now ∧ ¬ entryTime now e < now - 24) ∧
    (∀ (results : List (Except GoStr (List NewsItem))) (cut : Int),
      (∀ l, Except.ok l ∈ results → ∀ it ∈ l, ¬ it.publishedAt < cut) →
      ∀ out, scrapeNewsByType results = .ok out → ∀ it ∈ out, ¬ it.publishedAt < cut) := by
  refine ⟨?_, ?_, ?_⟩
  · intro srcName newsType now entries
    exact scrapeRSSFeedLoop_recency srcName newsType now entries []
      (by intro it h; cases h)
  · intro now e h1 h2
    unfold entryTime
    rw [h1, h2]
    dsimp only
    exact ⟨rfl, by omega⟩
  · intro results cut hall out hok it hit
    have hout : out = mergeScraped results := by
      unfold scrapeNewsByType at hok
      dsimp only at hok
      split at hok
      · cases hok
      · injection hok with h2
        exact h2.symm
    rw [hout] at hit
    obtain ⟨l, hl, hitl⟩ := mem_mergeScraped_exists hit
    exact hall l hl it hitl

/-- C8 witness: a dated entry inside the window and an undated entry are
both retained at a concrete fetch; the undated entry's timestamp is the
fetch time; a concrete aggregation keeps the window. -/
theorem claim_C8_witness :
    (¬ ({ title := ['t'], summary := ['d'], url := ['u'], source := ['s']
        , publishedAt := (90 : Int) } : NewsItem).publishedAt < (100 : Int) - 24) ∧
    (entryTime 100
        { title := ['t'], description := ['d'], link := ['u']
        , publishedParsed := none, updatedParsed := none } = 100) := by
  refine ⟨?_, ?_⟩
  · exact claim_C8.1 ['s'] ['z'] 100
      [{ title := ['t'], description := ['d'], link := ['u']
       , publishedParsed := some 90, updatedParsed := none }]
      { title := ['t'], summary := ['d'], url := ['u'], source := ['s']
      , publishedAt := (90 : Int) } (by decide)
  · exact (claim_C8.2.1 100
      { title := ['t'], description := ['d'], link := ['u']
      , publishedParsed := none, updatedParsed := none } rfl rfl).1

/-- C9 counterexample: normalizing `"<<p>p>"` removes the inner `<p>`
occurrence but thereby splices the surrounding characters into a new
`<p>` — the normalized output still contains a tag from the fixed set,
refuting "normalization strips the fixed set of markup tags" read as a
postcondition on the output. -/
theorem claim_C9_counterexample :
    cleanText "<<p>p>".toList = "<p>".toList ∧
    containsSub "<p>".toList (cleanText "<<p>p>".toList) = true := by
  decide

/-- C9 amended: every summary produced by the fetcher has length at most
300 units and arises as the (possibly truncated) normalization of the
entry's description; a cleaned summary longer than 300 units is cut to
297 units with the `"..."` marker appended; normalization applies the
fixed single-pass tag-removal replacements (a removal can splice
adjacent characters into a new tag occurrence, so the output is not
guaranteed tag-free) and guarantees an output free of newlines, tabs
and repeated spaces. -/
theorem claim_C9_amended :
    (∀ (srcName newsType : GoStr) (now : Int) (entries : List FeedEntry),
      ∀ it ∈ scrapeRSSFeed srcName newsType now entries,
        it.summary.length ≤ 300 ∧ ∃ d, it.summary = capSummary300 (cleanText d)) ∧
    (∀ s : GoStr, 300 < s.length → capSummary300 s = s.take 297 ++ "...".toList) ∧
    (∀ t : GoStr, ('\n' ∉ cleanText t) ∧ ('\t' ∉ cleanText t) ∧
      containsSub twoSpace (cleanText t) = false) := by
  refine ⟨?_, ?_, cleanText_normalized⟩
  · intro srcName newsType now entries it hit
    obtain ⟨d, hd⟩ := scrapeRSSFeedLoop_summary srcName newsType now entries []
      (by intro x hx; cases hx) it hit
    refine ⟨?_, d, hd⟩
    rw [hd]
    exact capSummary300_length (cleanText d)
  · intro s h
    unfold capSummary300
    rw [if_pos h]

/-- C9 amended witness: a concrete fetched item's summary obeys the
bound, and a concrete 301-unit text is truncated with the marker. -/
theorem claim_C9_amended_witness :
    (({ title := ['t'], summary := ['d'], url := ['u'], source := ['s']
      , publishedAt := (90 : Int) } : NewsItem).summary.length ≤ 300) ∧
    capSummary300 (List.replicate 301 'x') =
      (List.replicate 301 'x').take 297 ++ "...".toList := by
  refine ⟨?_, ?_⟩
  · exact (claim_C9_amended.1 ['s'] ['z'] 100
      [{ title := ['t'], description := ['d'], link := ['u']
       , publishedParsed := some 90, updatedParsed := none }]
      { title := ['t'], summary := ['d'], url := ['u'], source := ['s']
      , publishedAt := (90 : Int) } (by decide)).1
  · exact claim_C9_amended.2.1 (List.replicate 301 'x') (by rw [List.length_replicate]; omega)
